import Mathlib

/-!
Verification of the auto-scope microscope controller core
(`micro_camera_scope/main_control.py`, `micro_camera_scope/visual_servo_tracker.py`)
against its natural-language specification.

Shallow embedding conventions:
* `numpy` `uint8` pixels are modelled as natural-number channel triples; the
  arithmetic performed by the code (`0.5*a + 0.5*b` followed by `astype(uint8)`
  truncation) is exact on values below 256 and equals floor division by 2.
* Keypoint coordinates (Python floats) are modelled as rationals.
* The serial device is modelled by an outcome record saying whether the
  `write` call and the subsequent response-read segment raise an exception.
* Wall-clock times are rationals.
-/

/-- A BGR pixel: three channel values. -/
abbrev Pix : Type := ℕ × ℕ × ℕ

/-- Channel sum used by `blend_regions` as the presence test
(`np.sum(region, axis=2)`). -/
def sumC (p : Pix) : ℕ := p.1 + p.2.1 + p.2.2

/-- The all-black pixel. -/
def zeroPix : Pix := (0, 0, 0)

/-- Per-pixel semantics of `MicroscopeStitcher.blend_regions`:
overlap pixels (both channel sums positive) are averaged with `alpha = 0.5`
and truncated (`astype(np.uint8)` = floor), pixels present only in the new
region are copied, all remaining pixels keep the canvas value. -/
def blendPixel (c n : Pix) : Pix :=
  if 0 < sumC c ∧ 0 < sumC n then
    ((c.1 + n.1) / 2, (c.2.1 + n.2.1) / 2, (c.2.2 + n.2.2) / 2)
  else if sumC c = 0 ∧ 0 < sumC n then n
  else c

/-- `MicroscopeStitcher.blend_regions` on a 2-D region (row-major list of
rows), applying the masked update pixelwise. -/
def blend_regions (canvas_region new_region : List (List Pix)) : List (List Pix) :=
  List.zipWith (fun r s => List.zipWith blendPixel r s) canvas_region new_region

lemma blendPixel_zero_left (t : Pix) : blendPixel zeroPix t = t := by
  obtain ⟨a, b, c⟩ := t
  rcases Nat.eq_zero_or_pos (a + b + c) with h | h
  · have ha : a = 0 := by omega
    have hb : b = 0 := by omega
    have hc : c = 0 := by omega
    subst ha; subst hb; subst hc
    simp [blendPixel, zeroPix, sumC]
  · have h1 : ¬ (0 < sumC zeroPix ∧ 0 < sumC (a, b, c)) := by
      simp [zeroPix, sumC]
    have h2 : sumC zeroPix = 0 ∧ 0 < sumC (a, b, c) := ⟨rfl, by simpa [sumC] using h⟩
    simp [blendPixel, h1, h2]

lemma zipWith_blendPixel_zero (r s : List Pix) (hlen : r.length = s.length)
    (hz : ∀ p ∈ r, p = zeroPix) : List.zipWith blendPixel r s = s := by
  induction r generalizing s with
  | nil => cases s with
    | nil => rfl
    | cons b t => simp at hlen
  | cons a r ih =>
    cases s with
    | nil => simp at hlen
    | cons b t =>
      have ha : a = zeroPix := hz a (by simp)
      simp only [List.zipWith_cons_cons, ha, blendPixel_zero_left]
      have := ih t (by simpa using hlen) (fun p hp => hz p (by simp [hp]))
      rw [this]

/-- The move alphabet of the stage protocol: a pair (Y command, X command)
with Y in U/D/S and X in L/R/S. -/
abbrev Move : Type := Char × Char

/-- Loop body of `MicroscopeStitcher.generate_lawnmower_pattern`:
`rowsLeft` rows remain; each contributes `steps - 1` horizontal moves, then
(unless it is the last row) one down move, flipping the direction. -/
def lawnAux (steps : ℕ) : ℕ → Bool → List Move
  | 0, _ => []
  | r + 1, goingRight =>
    List.replicate (steps - 1) (if goingRight then ('S', 'R') else ('S', 'L')) ++
      (if r = 0 then [] else ('D', 'S') :: lawnAux steps r (!goingRight))

/-- `MicroscopeStitcher.generate_lawnmower_pattern` for configured
`rows_to_scan` and `steps_per_row`; the scan starts going right. -/
def generate_lawnmower_pattern (rows_to_scan steps_per_row : ℕ) : List Move :=
  lawnAux steps_per_row rows_to_scan true

/-- Direction of row `i` when row 0 moves in direction `b`
(`true` = right): it flips on every row. -/
def rowDir (b : Bool) (i : ℕ) : Bool := if i % 2 = 0 then b else !b

/-- Horizontal move for a direction flag. -/
def hMove (b : Bool) : Move := if b then ('S', 'R') else ('S', 'L')

/-- Specification-side closed form of the lawnmower pattern: row `i` of
`rows` contributes `steps - 1` horizontal moves in the direction of its
parity, followed by a down move unless it is the last row. -/
def lawnmowerSpec (rows steps : ℕ) : List Move :=
  ((List.range rows).map (fun i =>
    List.replicate (steps - 1) (hMove (rowDir true i)) ++
      (if i + 1 < rows then [('D', 'S')] else []))).flatten

lemma rowDir_succ (b : Bool) (i : ℕ) : rowDir b (i + 1) = rowDir (!b) i := by
  rcases Nat.even_or_odd i with h | h
  · have h2 : i % 2 = 0 := Nat.even_iff.mp h
    have h3 : (i + 1) % 2 = 1 := by omega
    simp [rowDir, h2, h3]
  · have h2 : i % 2 = 1 := Nat.odd_iff.mp h
    have h3 : (i + 1) % 2 = 0 := by omega
    simp [rowDir, h2, h3]

lemma lawnAux_closed_form (steps : ℕ) :
    ∀ (rows : ℕ) (b : Bool),
      lawnAux steps rows b =
        ((List.range rows).map (fun i =>
          List.replicate (steps - 1) (hMove (rowDir b i)) ++
            (if i + 1 < rows then [('D', 'S')] else []))).flatten := by
  intro rows
  induction rows with
  | zero => intro b; simp [lawnAux]
  | succ r ih =>
    intro b
    rw [List.range_succ_eq_map, List.map_cons, List.flatten_cons, List.map_map]
    have hfun :
        ((fun i => List.replicate (steps - 1) (hMove (rowDir b i)) ++
            (if i + 1 < r + 1 then [('D', 'S')] else [])) ∘ Nat.succ) =
          (fun i => List.replicate (steps - 1) (hMove (rowDir (!b) i)) ++
            (if i + 1 < r then [('D', 'S')] else [])) := by
      funext i
      have h1 : rowDir b (Nat.succ i) = rowDir (!b) i := rowDir_succ b i
      have h2 : (Nat.succ i + 1 < r + 1) ↔ (i + 1 < r) := by omega
      simp only [Function.comp_apply, h1, h2]
    rw [hfun, ← ih (!b)]
    have hdir0 : rowDir b 0 = b := by simp [rowDir]
    rcases Nat.eq_zero_or_pos r with hr | hr
    · subst hr
      simp [lawnAux, hMove, hdir0]
    · have hr0 : ¬ r = 0 := by omega
      have hlt : 0 + 1 < r + 1 := by omega
      simp [lawnAux, hr0, hdir0, hlt, hMove]

/-- Python banker's rounding (`round` on a float is round-half-to-even),
as applied by `int(round(np.median(...)))`. -/
def pyRound (q : ℚ) : ℤ :=
  let f := ⌊q⌋
  let r := q - (f : ℚ)
  if r < 1 / 2 then f
  else if 1 / 2 < r then f + 1
  else if f % 2 = 0 then f else f + 1

lemma pyRound_intCast (n : ℤ) : pyRound (n : ℚ) = n := by
  have hf : ⌊(n : ℚ)⌋ = n := Int.floor_intCast n
  simp [pyRound, hf]

/-- `np.median` on rationals: sort ascending, take the middle element for an
odd count, the mean of the two middle elements for an even count (0 for the
empty list, which the code never reaches: it is guarded by the 10-match
minimum). -/
def medianQ (l : List ℚ) : ℚ :=
  let s := l.insertionSort (fun a b => a ≤ b)
  if l.length % 2 = 1 then s.getD (l.length / 2) 0
  else (s.getD (l.length / 2 - 1) 0 + s.getD (l.length / 2) 0) / 2

lemma count_partition (l : List ℚ) (v : ℚ) :
    l.countP (fun x => decide (x < v)) + l.count v +
      l.countP (fun x => decide (v < x)) = l.length := by
  induction l with
  | nil => simp
  | cons a t ih =>
    rcases lt_trichotomy a v with h | h | h
    · have h1 : decide (a < v) = true := decide_eq_true h
      have h2 : decide (v < a) = false := decide_eq_false (not_lt.mpr h.le)
      have h3 : ¬ a = v := ne_of_lt h
      simp [List.countP_cons, List.count_cons, h1, h2, h3]
      omega
    · subst h
      have h1 : decide (a < a) = false := decide_eq_false (lt_irrefl a)
      simp [List.countP_cons, List.count_cons, h1]
      omega
    · have h1 : decide (a < v) = false := decide_eq_false (not_lt.mpr h.le)
      have h2 : decide (v < a) = true := decide_eq_true h
      have h3 : ¬ a = v := ne_of_gt h
      simp [List.countP_cons, List.count_cons, h1, h2, h3]
      omega

lemma countP_lt_of_sorted_getElem_lt (s : List ℚ) (hs : s.Sorted (· ≤ ·))
    (v : ℚ) (i : ℕ) (hi : i < s.length) (hlt : s.get ⟨i, hi⟩ < v) :
    i + 1 ≤ s.countP (fun x => decide (x < v)) := by
  have hsub : (s.take (i + 1)).Sublist s := List.take_sublist _ _
  have hall : ∀ x ∈ s.take (i + 1), (fun x => decide (x < v)) x = true := by
    intro x hx
    obtain ⟨j, hj, hxe⟩ := List.getElem_of_mem hx
    rw [List.length_take] at hj
    have hjlen : j < s.length := by omega
    have hji : j ≤ i := by omega
    rw [List.getElem_take] at hxe
    have hle : s.get ⟨j, hjlen⟩ ≤ s.get ⟨i, hi⟩ :=
      List.Sorted.rel_get_of_le hs (by simpa using hji)
    have hxle : x ≤ s.get ⟨i, hi⟩ := by
      rw [← hxe]
      simpa [List.get_eq_getElem] using hle
    exact decide_eq_true (lt_of_le_of_lt hxle hlt)
  have h1 : (s.take (i + 1)).countP (fun x => decide (x < v)) =
      (s.take (i + 1)).length := List.countP_eq_length.mpr hall
  have h2 : (s.take (i + 1)).countP (fun x => decide (x < v)) ≤
      s.countP (fun x => decide (x < v)) := hsub.countP_le _
  have h3 : (s.take (i + 1)).length = i + 1 := by
    rw [List.length_take]
    omega
  omega

lemma countP_gt_of_sorted_getElem_gt (s : List ℚ) (hs : s.Sorted (· ≤ ·))
    (v : ℚ) (i : ℕ) (hi : i < s.length) (hgt : v < s.get ⟨i, hi⟩) :
    s.length - i ≤ s.countP (fun x => decide (v < x)) := by
  have hsub : (s.drop i).Sublist s := List.drop_sublist _ _
  have hall : ∀ x ∈ s.drop i, (fun x => decide (v < x)) x = true := by
    intro x hx
    obtain ⟨j, hj, hxe⟩ := List.getElem_of_mem hx
    rw [List.length_drop] at hj
    have hjlen : i + j < s.length := by omega
    rw [List.getElem_drop] at hxe
    have hle : s.get ⟨i, hi⟩ ≤ s.get ⟨i + j, hjlen⟩ :=
      List.Sorted.rel_get_of_le hs (by simp)
    have hxle : s.get ⟨i, hi⟩ ≤ x := by
      rw [← hxe]
      simpa [List.get_eq_getElem] using hle
    exact decide_eq_true (lt_of_lt_of_le hgt hxle)
  have h1 : (s.drop i).countP (fun x => decide (v < x)) =
      (s.drop i).length := List.countP_eq_length.mpr hall
  have h2 : (s.drop i).countP (fun x => decide (v < x)) ≤
      s.countP (fun x => decide (v < x)) := hsub.countP_le _
  have h3 : (s.drop i).length = s.length - i := List.length_drop i s
  omega

lemma sorted_majority_getElem (s : List ℚ) (hs : s.Sorted (· ≤ ·)) (v : ℚ)
    (i : ℕ) (hi : i < s.length) (hlo : s.length - s.count v ≤ i)
    (hhi : i < s.count v) : s.get ⟨i, hi⟩ = v := by
  have hpart := count_partition s v
  have hcle : s.count v ≤ s.length := List.count_le_length v s
  rcases lt_trichotomy (s.get ⟨i, hi⟩) v with h | h | h
  · have := countP_lt_of_sorted_getElem_lt s hs v i hi h
    omega
  · exact h
  · have := countP_gt_of_sorted_getElem_gt s hs v i hi h
    omega

lemma medianQ_of_majority (l : List ℚ) (v : ℚ) (h0 : 0 < l.length)
    (hmaj : l.length < 2 * l.count v) : medianQ l = v := by
  have hperm : (l.insertionSort (fun a b => a ≤ b)).Perm l :=
    List.perm_insertionSort _ l
  have hlen : (l.insertionSort (fun a b => a ≤ b)).length = l.length :=
    hperm.length_eq
  have hcount : (l.insertionSort (fun a b => a ≤ b)).count v = l.count v :=
    hperm.count_eq v
  have hsorted : (l.insertionSort (fun a b => a ≤ b)).Sorted (· ≤ ·) :=
    List.sorted_insertionSort _ l
  have hcle : l.count v ≤ l.length := List.count_le_length v l
  rcases Nat.even_or_odd l.length with he | ho
  · have hmod : l.length % 2 = 0 := Nat.even_iff.mp he
    have hi1 : l.length / 2 - 1 < (l.insertionSort (fun a b => a ≤ b)).length := by
      omega
    have hi2 : l.length / 2 < (l.insertionSort (fun a b => a ≤ b)).length := by
      omega
    have hv1 : (l.insertionSort (fun a b => a ≤ b)).get ⟨l.length / 2 - 1, hi1⟩ = v := by
      apply sorted_majority_getElem _ hsorted v _ _ <;> omega
    have hv2 : (l.insertionSort (fun a b => a ≤ b)).get ⟨l.length / 2, hi2⟩ = v := by
      apply sorted_majority_getElem _ hsorted v _ _ <;> omega
    have hg1 : (l.insertionSort (fun a b => a ≤ b)).getD (l.length / 2 - 1) 0 = v := by
      rw [List.getD_eq_getElem _ _ hi1]
      simpa [List.get_eq_getElem] using hv1
    have hg2 : (l.insertionSort (fun a b => a ≤ b)).getD (l.length / 2) 0 = v := by
      rw [List.getD_eq_getElem _ _ hi2]
      simpa [List.get_eq_getElem] using hv2
    have hmod1 : ¬ l.length % 2 = 1 := by omega
    unfold medianQ
    simp only [hmod1, if_false, hg1, hg2]
    ring
  · have hmod : l.length % 2 = 1 := Nat.odd_iff.mp ho
    have hi2 : l.length / 2 < (l.insertionSort (fun a b => a ≤ b)).length := by
      omega
    have hv2 : (l.insertionSort (fun a b => a ≤ b)).get ⟨l.length / 2, hi2⟩ = v := by
      apply sorted_majority_getElem _ hsorted v _ _ <;> omega
    have hg2 : (l.insertionSort (fun a b => a ≤ b)).getD (l.length / 2) 0 = v := by
      rw [List.getD_eq_getElem _ _ hi2]
      simpa [List.get_eq_getElem] using hv2
    unfold medianQ
    simp only [hmod, if_true, hg2]

lemma count_map_le (f : ℚ × ℚ → ℚ) (l : List (ℚ × ℚ)) (p : ℚ × ℚ) :
    l.count p ≤ (l.map f).count (f p) := by
  induction l with
  | nil => simp
  | cons a t ih =>
    simp only [List.map_cons, List.count_cons]
    split_ifs with h1 h2 h2
    · omega
    · exfalso
      exact h2 (beq_iff_eq.mpr (congrArg f (beq_iff_eq.mp h1)))
    · omega
    · omega

/-- Per-match displacement vectors built in `stitch_frames`:
`(pt_last - pt_curr)` componentwise, where a match `m` pairs
`kp_curr[m.queryIdx]` with `kp_last[m.trainIdx]`. -/
def dispVectors (kp_curr kp_last : List (ℚ × ℚ)) (ms : List (ℕ × ℕ)) :
    List (ℚ × ℚ) :=
  ms.map (fun m =>
    ((kp_last.getD m.2 (0, 0)).1 - (kp_curr.getD m.1 (0, 0)).1,
     (kp_last.getD m.2 (0, 0)).2 - (kp_curr.getD m.1 (0, 0)).2))

/-- Translation estimate of `stitch_frames`:
`dx = int(round(np.median(xs)))`, `dy = int(round(np.median(ys)))` over the
displacement vectors. -/
def estimateOffset (kp_curr kp_last : List (ℚ × ℚ)) (ms : List (ℕ × ℕ)) :
    ℤ × ℤ :=
  (pyRound (medianQ ((dispVectors kp_curr kp_last ms).map Prod.fst)),
   pyRound (medianQ ((dispVectors kp_curr kp_last ms).map Prod.snd)))

/-- Opaque binary ORB descriptor set; the embedding never inspects it, it is
only handed to the matcher. -/
abbrev Desc : Type := List ℕ

/-- An image as a total pixel function (row, column). -/
abbrev Img : Type := ℤ → ℤ → Pix

/-- Stitching canvas height (`self.canvas_height = 1500`). -/
def canvas_height : ℤ := 1500

/-- Stitching canvas width (`self.canvas_width = 1500`). -/
def canvas_width : ℤ := 1500

/-- Fixed crop width (`crop_right - crop_left = 380 - 180`), the width of
every tile entering `stitch_frames`. -/
def crop_width : ℤ := 200

/-- Fixed crop height (`crop_bottom - crop_top = 465 - 240`), the height of
every tile entering `stitch_frames`. -/
def crop_height : ℤ := 225

/-- State owned by the stitching worker: canvas buffer, first-frame start
position, initialization flag, and the previous tile's features/placement. -/
structure MosaicState where
  canvas : Img
  pos_x : ℤ
  pos_y : ℤ
  first_frame_init : Bool
  kp_last : List (ℚ × ℚ)
  des_last : Option Desc
  pos_last : Option (ℤ × ℤ)

/-- First-frame write:
`canvas[pos_y:pos_y+h, pos_x:pos_x+w] = frame_cropped`. -/
def writeRegion (cv : Img) (px py : ℤ) (tile : Img) : Img :=
  fun r c =>
    if py ≤ r ∧ r < py + crop_height ∧ px ≤ c ∧ c < px + crop_width then
      tile (r - py) (c - px)
    else cv r c

/-- Steady-state write: the destination region is read, blended with the
tile via `blend_regions`, and written back. -/
def blendWrite (cv : Img) (px py : ℤ) (tile : Img) : Img :=
  fun r c =>
    if py ≤ r ∧ r < py + crop_height ∧ px ≤ c ∧ c < px + crop_width then
      blendPixel (cv r c) (tile (r - py) (c - px))
    else cv r c

/-- One tile arriving on the stitch queue, together with the result of
`orb.detectAndCompute` on it (keypoints, optional descriptors). -/
structure StitchInput where
  tile : Img
  kp_curr : List (ℚ × ℚ)
  des_curr : Option Desc

/-- One iteration of the `stitch_frames` worker body on a dequeued tile.
`matchFn` abstracts `bf.match(des_curr, des_last)` followed by the sort by
ascending distance (its output is the sorted match list; matches are
(queryIdx, trainIdx) pairs). Totality of this function models the
`try/except` that keeps any stitching error from escaping the loop. -/
def stitchStep (matchFn : Desc → Desc → List (ℕ × ℕ)) (st : MosaicState)
    (inp : StitchInput) : MosaicState :=
  if st.first_frame_init = false then
    { st with
      canvas := writeRegion st.canvas st.pos_x st.pos_y inp.tile,
      kp_last := inp.kp_curr,
      des_last := inp.des_curr,
      pos_last := some (st.pos_x, st.pos_y),
      first_frame_init := true }
  else
    match st.des_last, inp.des_curr with
    | some dl, some dc =>
      let ms := matchFn dc dl
      if 10 ≤ ms.length then
        let off := estimateOffset inp.kp_curr st.kp_last ms
        let p := st.pos_last.getD (0, 0)
        let pos_x_new := max 0 (min (p.1 + off.1) (canvas_width - crop_width))
        let pos_y_new := max 0 (min (p.2 + off.2) (canvas_height - crop_height))
        { st with
          canvas := blendWrite st.canvas pos_x_new pos_y_new inp.tile,
          kp_last := inp.kp_curr,
          des_last := inp.des_curr,
          pos_last := some (pos_x_new, pos_y_new) }
      else st
    | _, _ => st

/-- Run the stitch worker over a sequence of dequeued tiles. -/
def runStitch (matchFn : Desc → Desc → List (ℕ × ℕ)) (st : MosaicState)
    (inputs : List StitchInput) : MosaicState :=
  inputs.foldl (stitchStep matchFn) st

/-- Canvas state right after `reset_canvas` (as run by `start_stitching`):
zero canvas, start position `((canvas_width - crop_width) // 2,
canvas_height // 2 - crop_bottom)`, not initialized. -/
def initMosaic (crop_bottom : ℤ) : MosaicState where
  canvas := fun _ _ => zeroPix
  pos_x := (canvas_width - crop_width) / 2
  pos_y := canvas_height / 2 - crop_bottom
  first_frame_init := false
  kp_last := []
  des_last := none
  pos_last := none

/-- A placement keeps the tile footprint fully inside the canvas. -/
def posInBounds (p : ℤ × ℤ) : Prop :=
  0 ≤ p.1 ∧ p.1 ≤ canvas_width - crop_width ∧
    0 ≤ p.2 ∧ p.2 ≤ canvas_height - crop_height

/-- Inductive invariant for the canvas-bounds property. -/
def mosaicInv (st : MosaicState) : Prop :=
  (st.first_frame_init = false →
     st.pos_x = 650 ∧ 0 ≤ st.pos_y ∧ st.pos_y ≤ canvas_height - crop_height) ∧
  (st.first_frame_init = true →
     ∃ p, st.pos_last = some p ∧ posInBounds p)

lemma mosaicInv_step (matchFn : Desc → Desc → List (ℕ × ℕ))
    (st : MosaicState) (inp : StitchInput) (h : mosaicInv st) :
    mosaicInv (stitchStep matchFn st inp) := by
  obtain ⟨h0, h1⟩ := h
  unfold stitchStep
  split
  · next hinit =>
    obtain ⟨hx, hy0, hy1⟩ := h0 hinit
    constructor
    · intro hc
      simp at hc
    · intro _
      refine ⟨(st.pos_x, st.pos_y), rfl, ?_⟩
      unfold posInBounds
      simp only [hx]
      unfold canvas_width canvas_height crop_width crop_height
      unfold canvas_height crop_height at hy1
      omega
  · next hinit =>
    split
    · next dl dc hdl hdc =>
      dsimp only
      split
      · next hm =>
        constructor
        · intro hc
          simp at hc
          exact absurd hc hinit
        · intro _
          refine ⟨_, rfl, ?_⟩
          unfold posInBounds
          unfold canvas_width canvas_height crop_width crop_height
          dsimp only
          omega
      · next hm =>
        exact ⟨h0, h1⟩
    · next =>
      exact ⟨h0, h1⟩

lemma mosaicInv_run (matchFn : Desc → Desc → List (ℕ × ℕ))
    (inputs : List StitchInput) :
    ∀ st : MosaicState, mosaicInv st → mosaicInv (runStitch matchFn st inputs) := by
  induction inputs with
  | nil => intro st h; exact h
  | cons i t ih =>
    intro st h
    exact ih _ (mosaicInv_step matchFn st i h)

lemma mosaicInv_init (cb : ℤ) (h1 : 225 ≤ cb) (h2 : cb ≤ 720) :
    mosaicInv (initMosaic cb) := by
  have hw : (canvas_width - crop_width) / 2 = 650 := by
    norm_num [canvas_width, crop_width]
  have hh : canvas_height / 2 = (750 : ℤ) := by
    norm_num [canvas_height]
  constructor
  · intro _
    refine ⟨?_, ?_, ?_⟩
    · simp only [initMosaic, hw]
    · simp only [initMosaic, hh]
      omega
    · simp only [initMosaic, hh]
      unfold canvas_height crop_height
      omega
  · intro hc
    simp [initMosaic] at hc

/-- Outcome of one serial interaction: whether `arduino.write` raised an
exception, and whether the response-handling segment after it
(`in_waiting` / `readline` / `decode`) raised. -/
structure DevOutcome where
  writeOk : Bool
  respOk : Bool
deriving DecidableEq

/-- The controller's stage bookkeeping: connection flag, absolute step
counters `abs_x`/`abs_y`, and the home flag `self.set`. -/
structure ServoState where
  arduino_connected : Bool
  abs_x : ℤ
  abs_y : ℤ
  set : Bool
deriving DecidableEq

/-- Result of `send_step`: Python return value, whether bytes reached the
serial link, and the state after the call. -/
structure SendResult where
  ok : Bool
  transmitted : Bool
  state : ServoState
deriving DecidableEq

/-- Y-axis delta of a step command: `U` is +1, `D` is -1, others 0. -/
def stepDeltaY (y_cmd : Char) : ℤ :=
  if y_cmd = 'U' then 1 else if y_cmd = 'D' then -1 else 0

/-- X-axis delta of a step command: `L` is +1, `R` is -1, others 0. -/
def stepDeltaX (x_cmd : Char) : ℤ :=
  if x_cmd = 'L' then 1 else if x_cmd = 'R' then -1 else 0

/-- `MicroscopeStitcher.send_step`: refuse when disconnected; compute the
prospective position; when homed reject a negative prospective coordinate
(x checked first) before any transmission; then write the command and, only
after the whole try-body succeeds, commit the prospective position. A raise
anywhere in the try-body is caught and yields `False` with the ledger
untouched. -/
def send_step (st : ServoState) (y_cmd x_cmd : Char) (dev : DevOutcome) :
    SendResult :=
  if st.arduino_connected = false then ⟨false, false, st⟩
  else
    let new_abs_x := st.abs_x + stepDeltaX x_cmd
    let new_abs_y := st.abs_y + stepDeltaY y_cmd
    if st.set = true ∧ new_abs_x < 0 then ⟨false, false, st⟩
    else if st.set = true ∧ new_abs_y < 0 then ⟨false, false, st⟩
    else if dev.writeOk = false then ⟨false, false, st⟩
    else if dev.respOk = false then ⟨false, true, st⟩
    else ⟨true, true, { st with abs_x := new_abs_x, abs_y := new_abs_y }⟩

/-- `MicroscopeStitcher.set_home`: when connected, zero the ledger and set
the home flag. -/
def set_home (st : ServoState) : ServoState :=
  if st.arduino_connected = true then
    { st with abs_x := 0, abs_y := 0, set := true }
  else st

/-- Fold a sequence of `send_step` calls over the servo state. -/
def run_send_steps (st : ServoState) (cmds : List (Char × Char × DevOutcome)) :
    ServoState :=
  cmds.foldl (fun s c => (send_step s c.1 c.2.1 c.2.2).state) st

lemma send_step_inv (st : ServoState) (y_cmd x_cmd : Char) (dev : DevOutcome)
    (hset : st.set = true) (hx : 0 ≤ st.abs_x) (hy : 0 ≤ st.abs_y) :
    (send_step st y_cmd x_cmd dev).state.set = true ∧
      0 ≤ (send_step st y_cmd x_cmd dev).state.abs_x ∧
      0 ≤ (send_step st y_cmd x_cmd dev).state.abs_y := by
  unfold send_step
  split
  · exact ⟨hset, hx, hy⟩
  · dsimp only
    split
    · exact ⟨hset, hx, hy⟩
    · split
      · exact ⟨hset, hx, hy⟩
      · next hnx hny =>
        split
        · exact ⟨hset, hx, hy⟩
        · split
          · exact ⟨hset, hx, hy⟩
          · refine ⟨hset, ?_, ?_⟩
            · dsimp only
              rcases not_and.mp hnx hset with h
              omega
            · dsimp only
              rcases not_and.mp hny hset with h
              omega

/-- `MOTOR_COMMAND_INTERVAL = 3.0` seconds. -/
def MOTOR_COMMAND_INTERVAL : ℚ := 3

/-- State read by `send_motor_command_simple`: connection flag and the
rate-limit timestamp `last_motor_command_time`. -/
structure MotorState where
  arduino_connected : Bool
  last_motor_command_time : ℚ
deriving DecidableEq

/-- Result of one `send_motor_command_simple` call. -/
structure MotorResult where
  ok : Bool
  transmitted : Bool
  state : MotorState
deriving DecidableEq

/-- `MicroscopeStitcher.send_motor_command_simple` at wall-clock time `now`:
a STOP command (`'S','S'`) is written immediately with no rate check and
never touches the timestamp; a movement command inside the minimum interval
returns `True` without writing; otherwise the command is written and the
timestamp is advanced only when the whole try-body (write plus response
read) completes without raising. -/
def send_motor_command_simple (st : MotorState) (y_cmd x_cmd : Char)
    (now : ℚ) (dev : DevOutcome) : MotorResult :=
  if y_cmd = 'S' ∧ x_cmd = 'S' then
    if st.arduino_connected = false then ⟨false, false, st⟩
    else if dev.writeOk = false then ⟨false, false, st⟩
    else if dev.respOk = false then ⟨false, true, st⟩
    else ⟨true, true, st⟩
  else if now - st.last_motor_command_time < MOTOR_COMMAND_INTERVAL then
    ⟨true, false, st⟩
  else if st.arduino_connected = false then ⟨false, false, st⟩
  else if dev.writeOk = false then ⟨false, false, st⟩
  else if dev.respOk = false then ⟨false, true, st⟩
  else ⟨true, true, { st with last_motor_command_time := now }⟩

/-- One motor-command request: its wall-clock time, the two-axis command,
and the serial outcome. -/
structure MotorEvent where
  t : ℚ
  y_cmd : Char
  x_cmd : Char
  dev : DevOutcome
deriving DecidableEq

/-- Trace record of one dispatched request. -/
structure MotorRecord where
  t : ℚ
  y_cmd : Char
  x_cmd : Char
  transmitted : Bool
  ok : Bool
deriving DecidableEq

/-- Run a sequence of motor-command requests, recording for each whether
bytes reached the serial link and the Python return value. -/
def runMotor (st : MotorState) : List MotorEvent → List MotorRecord
  | [] => []
  | e :: es =>
    let r := send_motor_command_simple st e.y_cmd e.x_cmd e.t e.dev
    ⟨e.t, e.y_cmd, e.x_cmd, r.transmitted, r.ok⟩ :: runMotor r.state es

/-- The rate-limiting property exactly as the specification states it: in
any run, any two transmitted non-STOP commands lie at least the minimum
interval apart (here even stated with chronologically ordered requests). -/
def rateLimitAsStated : Prop :=
  ∀ (st : MotorState) (es : List MotorEvent),
    es.Chain' (fun a b => a.t ≤ b.t) →
    (runMotor st es).Pairwise (fun a b =>
      (¬(a.y_cmd = 'S' ∧ a.x_cmd = 'S') ∧ a.transmitted = true ∧
        ¬(b.y_cmd = 'S' ∧ b.x_cmd = 'S') ∧ b.transmitted = true) →
        MOTOR_COMMAND_INTERVAL ≤ b.t - a.t)

lemma sendMotor_rate_gate (st : MotorState) (y_cmd x_cmd : Char) (now : ℚ)
    (dev : DevOutcome) (hns : ¬(y_cmd = 'S' ∧ x_cmd = 'S'))
    (ht : (send_motor_command_simple st y_cmd x_cmd now dev).transmitted = true) :
    st.last_motor_command_time + MOTOR_COMMAND_INTERVAL ≤ now := by
  unfold send_motor_command_simple at ht
  rw [if_neg hns] at ht
  by_cases hrl : now - st.last_motor_command_time < MOTOR_COMMAND_INTERVAL
  · rw [if_pos hrl] at ht
    simp at ht
  · linarith [not_lt.mp hrl]

lemma sendMotor_time_cases (st : MotorState) (y_cmd x_cmd : Char) (now : ℚ)
    (dev : DevOutcome) :
    (send_motor_command_simple st y_cmd x_cmd now dev).state.last_motor_command_time =
        st.last_motor_command_time ∨
      ((send_motor_command_simple st y_cmd x_cmd now dev).state.last_motor_command_time =
          now ∧
        st.last_motor_command_time + MOTOR_COMMAND_INTERVAL ≤ now) := by
  unfold send_motor_command_simple
  split
  · split
    · exact Or.inl rfl
    · split
      · exact Or.inl rfl
      · split
        · exact Or.inl rfl
        · exact Or.inl rfl
  · split
    · exact Or.inl rfl
    · next hrl =>
      split
      · exact Or.inl rfl
      · split
        · exact Or.inl rfl
        · split
          · exact Or.inl rfl
          · refine Or.inr ⟨rfl, ?_⟩
            linarith [not_lt.mp hrl]

lemma sendMotor_success_updates (st : MotorState) (y_cmd x_cmd : Char)
    (now : ℚ) (dev : DevOutcome) (hns : ¬(y_cmd = 'S' ∧ x_cmd = 'S'))
    (ht : (send_motor_command_simple st y_cmd x_cmd now dev).transmitted = true)
    (hok : (send_motor_command_simple st y_cmd x_cmd now dev).ok = true) :
    (send_motor_command_simple st y_cmd x_cmd now dev).state.last_motor_command_time =
      now := by
  unfold send_motor_command_simple at ht hok ⊢
  rw [if_neg hns] at ht hok ⊢
  split_ifs at ht hok ⊢
  rfl

lemma runMotor_transmitted_ge (es : List MotorEvent) :
    ∀ (st : MotorState) (c : ℚ), c ≤ st.last_motor_command_time →
      ∀ r ∈ runMotor st es,
        (¬(r.y_cmd = 'S' ∧ r.x_cmd = 'S') ∧ r.transmitted = true) →
          c + MOTOR_COMMAND_INTERVAL ≤ r.t := by
  induction es with
  | nil =>
    intro st c _ r hr
    simp [runMotor] at hr
  | cons e es ih =>
    intro st c hc r hr hcond
    rw [runMotor] at hr
    rcases List.mem_cons.mp hr with hhead | htail
    · subst hhead
      have := sendMotor_rate_gate st e.y_cmd e.x_cmd e.t e.dev hcond.1 hcond.2
      linarith
    · rcases sendMotor_time_cases st e.y_cmd e.x_cmd e.t e.dev with hsame | ⟨hupd, hge⟩
      · exact ih _ c (by rw [hsame]; exact hc) r htail hcond
      · have hM : (0 : ℚ) ≤ MOTOR_COMMAND_INTERVAL := by
          norm_num [MOTOR_COMMAND_INTERVAL]
        exact ih _ c (by rw [hupd]; linarith) r htail hcond

lemma runMotor_pairwise_amended (es : List MotorEvent) :
    ∀ st : MotorState,
      (runMotor st es).Pairwise (fun a b =>
        (¬(a.y_cmd = 'S' ∧ a.x_cmd = 'S') ∧ a.transmitted = true ∧ a.ok = true ∧
          ¬(b.y_cmd = 'S' ∧ b.x_cmd = 'S') ∧ b.transmitted = true) →
          MOTOR_COMMAND_INTERVAL ≤ b.t - a.t) := by
  induction es with
  | nil => intro st; simp [runMotor]
  | cons e es ih =>
    intro st
    rw [runMotor]
    refine List.Pairwise.cons ?_ (ih _)
    intro b hb hcond
    obtain ⟨ha1, ha2, ha3, hb1, hb2⟩ := hcond
    have hupd := sendMotor_success_updates st e.y_cmd e.x_cmd e.t e.dev ha1 ha2 ha3
    have := runMotor_transmitted_ge es
      (send_motor_command_simple st e.y_cmd e.x_cmd e.t e.dev).state
      e.t (le_of_eq hupd.symm) b hb ⟨hb1, hb2⟩
    linarith

/-- Python `int()` on a rational: truncation toward zero. -/
def pyInt (q : ℚ) : ℤ := if 0 ≤ q then ⌊q⌋ else -⌊-q⌋

/-- A candidate contour, abstracted by its image moments
(`cv2.moments`): area `m00` and first-order moments `m10`, `m01`. -/
structure Contour where
  m00 : ℚ
  m10 : ℚ
  m01 : ℚ
deriving DecidableEq

/-- Centroid `(int(m10/m00), int(m01/m00))` of a contour. -/
def centroid (c : Contour) : ℤ × ℤ :=
  (pyInt (c.m10 / c.m00), pyInt (c.m01 / c.m00))

/-- Squared Euclidean distance between integer pixel points. The code
compares `sqrt(dx**2 + dy**2)` against thresholds; since the operands are
integers and square root is strictly monotone, every comparison in
`find_nearest_contour` and its callers is equivalent to the squared
comparison (100 px becomes 10000). -/
def sqDist (p q : ℤ × ℤ) : ℤ := (p.1 - q.1) ^ 2 + (p.2 - q.2) ^ 2

/-- Accumulator loop of `find_nearest_contour`: degenerate contours
(`m00 == 0`) are skipped; a strictly smaller distance replaces the current
best (the accumulator starts as `None`, standing for infinite distance). -/
def fncAux (target : ℤ × ℤ) :
    List Contour → Option (Contour × ℤ × (ℤ × ℤ)) →
      Option (Contour × ℤ × (ℤ × ℤ))
  | [], acc => acc
  | c :: cs, acc =>
    if c.m00 = 0 then fncAux target cs acc
    else
      match acc with
      | none => fncAux target cs (some (c, sqDist (centroid c) target, centroid c))
      | some a =>
        if sqDist (centroid c) target < a.2.1 then
          fncAux target cs (some (c, sqDist (centroid c) target, centroid c))
        else fncAux target cs acc

/-- `VisualServoTracker.find_nearest_contour` (identical to the copy in
`MicroscopeStitcher`): returns the non-degenerate contour whose centroid is
nearest to the target point, with its (squared) distance and centroid, or
`none` when no such contour exists. -/
def find_nearest_contour (contours : List Contour) (target : ℤ × ℤ) :
    Option (Contour × ℤ × (ℤ × ℤ)) :=
  fncAux target contours none

/-- Tracker lock state (`VisualServoTracker`). -/
structure TrackerState where
  tracking_active : Bool
  target_position : Option (ℤ × ℤ)
  target_history : List (ℤ × ℤ)
  selected_contour : Option Contour
  awaiting_selection : Bool
  click_position : Option (ℤ × ℤ)

/-- `VisualServoTracker.handle_click_selection`: when a click is pending,
find the nearest non-degenerate contour; lock on if it is within 100 px
(squared: 10000), otherwise report failure and change nothing else; in both
cases the pending click is consumed. -/
def handle_click_selection (st : TrackerState) (contours : List Contour) :
    TrackerState :=
  match st.awaiting_selection, st.click_position with
  | true, some cp =>
    (match find_nearest_contour contours cp with
     | some a =>
       if a.2.1 < 10000 then
         { st with
           tracking_active := true,
           target_position := some a.2.2,
           selected_contour := some a.1,
           target_history := [a.2.2],
           awaiting_selection := false,
           click_position := none }
       else { st with awaiting_selection := false, click_position := none }
     | none => { st with awaiting_selection := false, click_position := none })
  | _, _ => st

lemma fncAux_min_ge (target : ℤ × ℤ) (bound : ℤ) :
    ∀ (cs : List Contour) (acc : Option (Contour × ℤ × (ℤ × ℤ))),
      (∀ c ∈ cs, ¬ c.m00 = 0 → bound ≤ sqDist (centroid c) target) →
      (∀ a, acc = some a → bound ≤ a.2.1) →
      ∀ a, fncAux target cs acc = some a → bound ≤ a.2.1 := by
  intro cs
  induction cs with
  | nil =>
    intro acc _ hacc a ha
    exact hacc a ha
  | cons c cs ih =>
    intro acc hall hacc a ha
    simp only [fncAux] at ha
    by_cases hz : c.m00 = 0
    · rw [if_pos hz] at ha
      exact ih acc (fun d hd => hall d (List.mem_cons_of_mem _ hd)) hacc a ha
    · rw [if_neg hz] at ha
      have hcb : bound ≤ sqDist (centroid c) target :=
        hall c (List.mem_cons_self _ _) hz
      cases hax : acc with
      | none =>
        simp only [hax] at ha
        refine ih _ (fun d hd => hall d (List.mem_cons_of_mem _ hd)) ?_ a ha
        intro a' ha'
        cases ha'
        exact hcb
      | some a0 =>
        simp only [hax] at ha
        by_cases hlt : sqDist (centroid c) target < a0.2.1
        · rw [if_pos hlt] at ha
          refine ih _ (fun d hd => hall d (List.mem_cons_of_mem _ hd)) ?_ a ha
          intro a' ha'
          cases ha'
          exact hcb
        · rw [if_neg hlt] at ha
          refine ih _ (fun d hd => hall d (List.mem_cons_of_mem _ hd)) ?_ a ha
          intro a' ha'
          refine hacc a' ?_
          rw [hax]
          exact ha'

/-- C1: atomicity of command dispatch on transmit failure. If writing to
the serial link raises, `send_step` leaves the whole stage ledger
(`abs_x`, `abs_y`, and every other field) untouched and returns `False`;
and conversely the ledger changes only when the transmission (and the rest
of the try-body) succeeded, in which case it moves exactly to the
prospective position. -/
theorem send_step_rollback_on_write_failure
    (st : ServoState) (y_cmd x_cmd : Char) (dev : DevOutcome)
    (hw : dev.writeOk = false) :
    ((send_step st y_cmd x_cmd dev).state = st ∧
      (send_step st y_cmd x_cmd dev).ok = false ∧
      (send_step st y_cmd x_cmd dev).transmitted = false) ∧
    (∀ dev2 : DevOutcome,
      (send_step st y_cmd x_cmd dev2).state ≠ st →
        dev2.writeOk = true ∧ dev2.respOk = true ∧
        (send_step st y_cmd x_cmd dev2).ok = true ∧
        (send_step st y_cmd x_cmd dev2).state.abs_x =
          st.abs_x + stepDeltaX x_cmd ∧
        (send_step st y_cmd x_cmd dev2).state.abs_y =
          st.abs_y + stepDeltaY y_cmd) := by
  constructor
  · unfold send_step
    dsimp only
    split_ifs with h1 h2 h3
    · exact ⟨rfl, rfl, rfl⟩
    · exact ⟨rfl, rfl, rfl⟩
    · exact ⟨rfl, rfl, rfl⟩
    · exact ⟨rfl, rfl, rfl⟩
  · intro dev2 hne
    revert hne
    unfold send_step
    dsimp only
    split_ifs with h1 h2 h3 h4 h5
    · intro hne; exact absurd rfl hne
    · intro hne; exact absurd rfl hne
    · intro hne; exact absurd rfl hne
    · intro hne; exact absurd rfl hne
    · intro hne; exact absurd rfl hne
    · intro _
      refine ⟨?_, ?_, rfl, rfl, rfl⟩
      · cases hww : dev2.writeOk
        · exact absurd hww h4
        · rfl
      · cases hrr : dev2.respOk
        · exact absurd hrr h5
        · rfl

/-- Closed witness for the rollback theorem at a concrete state and a
failing write. -/
theorem send_step_rollback_witness :
    (DevOutcome.mk false true).writeOk = false ∧
    ((send_step ⟨true, 3, 4, false⟩ 'U' 'S' ⟨false, true⟩).state =
        ⟨true, 3, 4, false⟩ ∧
      (send_step ⟨true, 3, 4, false⟩ 'U' 'S' ⟨false, true⟩).ok = false ∧
      (send_step ⟨true, 3, 4, false⟩ 'U' 'S' ⟨false, true⟩).transmitted = false) :=
  ⟨rfl,
   (send_step_rollback_on_write_failure ⟨true, 3, 4, false⟩ 'U' 'S' ⟨false, true⟩
      rfl).1⟩

lemma run_send_steps_inv (cmds : List (Char × Char × DevOutcome)) :
    ∀ st : ServoState, st.set = true → 0 ≤ st.abs_x → 0 ≤ st.abs_y →
      (run_send_steps st cmds).set = true ∧
        0 ≤ (run_send_steps st cmds).abs_x ∧
        0 ≤ (run_send_steps st cmds).abs_y := by
  induction cmds with
  | nil => intro st h1 h2 h3; exact ⟨h1, h2, h3⟩
  | cons c t ih =>
    intro st h1 h2 h3
    obtain ⟨g1, g2, g3⟩ := send_step_inv st c.1 c.2.1 c.2.2 h1 h2 h3
    exact ih _ g1 g2 g3

/-- C2: homed non-negativity invariant. After `set_home` on a connected
controller, any sequence of `send_step` calls (with arbitrary serial
outcomes) keeps both absolute coordinates non-negative; any homed call
whose prospective position would go negative on either axis is rejected
with no transmission, `False`, and an unchanged state; in particular
`send_step('D','S')` from the freshly homed origin is so rejected. -/
theorem homed_position_nonneg (st : ServoState)
    (hc : st.arduino_connected = true)
    (cmds : List (Char × Char × DevOutcome)) :
    (0 ≤ (run_send_steps (set_home st) cmds).abs_x ∧
      0 ≤ (run_send_steps (set_home st) cmds).abs_y) ∧
    (∀ (s : ServoState) (y_cmd x_cmd : Char) (dev : DevOutcome),
      s.set = true →
      (s.abs_x + stepDeltaX x_cmd < 0 ∨ s.abs_y + stepDeltaY y_cmd < 0) →
        (send_step s y_cmd x_cmd dev).state = s ∧
        (send_step s y_cmd x_cmd dev).ok = false ∧
        (send_step s y_cmd x_cmd dev).transmitted = false) ∧
    (∀ dev : DevOutcome,
      (send_step (set_home st) 'D' 'S' dev).state = set_home st ∧
      (send_step (set_home st) 'D' 'S' dev).ok = false ∧
      (send_step (set_home st) 'D' 'S' dev).transmitted = false) := by
  have hhome : set_home st = { st with abs_x := 0, abs_y := 0, set := true } := by
    unfold set_home
    rw [if_pos hc]
  have hreject : ∀ (s : ServoState) (y_cmd x_cmd : Char) (dev : DevOutcome),
      s.set = true →
      (s.abs_x + stepDeltaX x_cmd < 0 ∨ s.abs_y + stepDeltaY y_cmd < 0) →
        (send_step s y_cmd x_cmd dev).state = s ∧
        (send_step s y_cmd x_cmd dev).ok = false ∧
        (send_step s y_cmd x_cmd dev).transmitted = false := by
    intro s y_cmd x_cmd dev hset hneg
    unfold send_step
    dsimp only
    split_ifs with h1 h2 h3 h4 h5
    · exact ⟨rfl, rfl, rfl⟩
    · exact ⟨rfl, rfl, rfl⟩
    · exact ⟨rfl, rfl, rfl⟩
    all_goals
      rcases hneg with hx | hy
      · exact absurd ⟨hset, hx⟩ h2
      · exact absurd ⟨hset, hy⟩ h3
  refine ⟨?_, hreject, ?_⟩
  · have := run_send_steps_inv cmds (set_home st)
      (by rw [hhome]) (by rw [hhome]) (by rw [hhome])
    exact ⟨this.2.1, this.2.2⟩
  · intro dev
    refine hreject (set_home st) 'D' 'S' dev (by rw [hhome]) ?_
    right
    rw [hhome]
    show (0 : ℤ) + stepDeltaY 'D' < 0
    decide

/-- Closed witness: from the homed origin of a connected controller, the
run over a down-step and an up-step stays non-negative, and the rejection
of `('D','S')` is exercised at a concrete serial outcome. -/
theorem homed_position_nonneg_witness :
    (ServoState.mk true 0 0 false).arduino_connected = true ∧
    (0 ≤ (run_send_steps (set_home ⟨true, 0, 0, false⟩)
        [('D', 'S', ⟨true, true⟩), ('U', 'S', ⟨true, true⟩)]).abs_x ∧
      0 ≤ (run_send_steps (set_home ⟨true, 0, 0, false⟩)
        [('D', 'S', ⟨true, true⟩), ('U', 'S', ⟨true, true⟩)]).abs_y) ∧
    (∀ dev : DevOutcome,
      (send_step (set_home ⟨true, 0, 0, false⟩) 'D' 'S' dev).state =
          set_home ⟨true, 0, 0, false⟩ ∧
        (send_step (set_home ⟨true, 0, 0, false⟩) 'D' 'S' dev).ok = false ∧
        (send_step (set_home ⟨true, 0, 0, false⟩) 'D' 'S' dev).transmitted =
          false) :=
  ⟨rfl,
   (homed_position_nonneg ⟨true, 0, 0, false⟩ rfl
      [('D', 'S', ⟨true, true⟩), ('U', 'S', ⟨true, true⟩)]).1,
   (homed_position_nonneg ⟨true, 0, 0, false⟩ rfl []).2.2⟩

/-- C5: blend identity on an empty destination, and the two stated presence
cases. Blending any tile onto an all-zero destination region of matching
shape returns exactly the tile; where both pixels are present the result is
the 50/50 average (integer pixel arithmetic: `astype(uint8)` truncates the
exact float mean, giving the floor of the mean); where only the tile is
present the tile pixel is copied. -/
theorem blend_identity_on_empty :
    (∀ dest tile : List (List Pix),
      List.Forall₂ (fun r s => r.length = s.length) dest tile →
      (∀ row ∈ dest, ∀ p ∈ row, p = zeroPix) →
      blend_regions dest tile = tile) ∧
    (∀ d t : Pix, 0 < sumC d → 0 < sumC t →
      blendPixel d t =
        ((d.1 + t.1) / 2, (d.2.1 + t.2.1) / 2, (d.2.2 + t.2.2) / 2)) ∧
    (∀ d t : Pix, sumC d = 0 → 0 < sumC t → blendPixel d t = t) := by
  refine ⟨?_, ?_, ?_⟩
  · intro dest tile hf hz
    induction hf with
    | nil => rfl
    | @cons a b l1 l2 hr hf2 ih =>
      have hza : ∀ p ∈ a, p = zeroPix := hz a (List.mem_cons_self _ _)
      have hzrest : ∀ row ∈ l1, ∀ p ∈ row, p = zeroPix :=
        fun row hrow => hz row (List.mem_cons_of_mem _ hrow)
      calc blend_regions (a :: l1) (b :: l2)
          = List.zipWith blendPixel a b :: blend_regions l1 l2 := rfl
        _ = b :: l2 := by
            rw [zipWith_blendPixel_zero a b hr hza, ih hzrest]
  · intro d t h1 h2
    unfold blendPixel
    rw [if_pos ⟨h1, h2⟩]
  · intro d t h1 h2
    unfold blendPixel
    rw [if_neg (by simp [h1]), if_pos ⟨h1, h2⟩]

/-- Closed witness exercising all three parts of the blend theorem at
concrete pixels. -/
theorem blend_identity_on_empty_witness :
    blend_regions [[zeroPix]] [[((5, 6, 7) : Pix)]] = [[((5, 6, 7) : Pix)]] ∧
    blendPixel (2, 0, 0) (4, 0, 0) = ((3, 0, 0) : Pix) ∧
    blendPixel zeroPix (1, 2, 3) = ((1, 2, 3) : Pix) :=
  ⟨blend_identity_on_empty.1 [[zeroPix]] [[(5, 6, 7)]]
      (List.Forall₂.cons rfl List.Forall₂.nil) (by simp),
   (blend_identity_on_empty.2.1 (2, 0, 0) (4, 0, 0)
      (by norm_num [sumC]) (by norm_num [sumC])).trans (by norm_num),
   blend_identity_on_empty.2.2 zeroPix (1, 2, 3) rfl (by norm_num [sumC])⟩

lemma blendPixel_absent (d t : Pix) (h : sumC t = 0) : blendPixel d t = d := by
  unfold blendPixel
  rw [if_neg (by simp [h]), if_neg (by simp [h])]

/-- C10: blend frame property. A destination pixel whose corresponding tile
pixel is absent (channel sum 0) is never modified by `blend_regions`; in
particular pixels present only in the destination are returned unchanged
(the fourth presence case). -/
theorem blend_preserves_absent_tile_pixels :
    (∀ d t : Pix, sumC t = 0 → blendPixel d t = d) ∧
    (∀ (dest tile : List (List Pix)) (i j : ℕ),
      i < dest.length → i < tile.length →
      j < (dest.getD i []).length → j < (tile.getD i []).length →
      sumC ((tile.getD i []).getD j zeroPix) = 0 →
        ((blend_regions dest tile).getD i []).getD j zeroPix =
          (dest.getD i []).getD j zeroPix) := by
  refine ⟨blendPixel_absent, ?_⟩
  intro dest tile i j hi hi2 hj hj2 habs
  have hd1 : dest.getD i [] = dest[i] := List.getD_eq_getElem _ _ hi
  have ht1 : tile.getD i [] = tile[i] := List.getD_eq_getElem _ _ hi2
  have hbl : i < (blend_regions dest tile).length := by
    unfold blend_regions
    rw [List.length_zipWith]
    omega
  have hb1 : (blend_regions dest tile).getD i [] = (blend_regions dest tile)[i] :=
    List.getD_eq_getElem _ _ hbl
  have hrow : (blend_regions dest tile)[i] =
      List.zipWith blendPixel dest[i] tile[i] := by
    unfold blend_regions at hbl ⊢
    exact List.getElem_zipWith
  rw [hd1] at hj
  rw [ht1] at hj2 habs
  have hjrow : j < (List.zipWith blendPixel dest[i] tile[i]).length := by
    rw [List.length_zipWith]
    omega
  have hb2 : (List.zipWith blendPixel dest[i] tile[i]).getD j zeroPix =
      (List.zipWith blendPixel dest[i] tile[i])[j] :=
    List.getD_eq_getElem _ _ hjrow
  have hjd : (dest[i]).getD j zeroPix = (dest[i])[j] := List.getD_eq_getElem _ _ hj
  have hjt : (tile[i]).getD j zeroPix = (tile[i])[j] := List.getD_eq_getElem _ _ hj2
  rw [hb1, hrow, hb2, List.getElem_zipWith, hd1, hjd]
  rw [hjt] at habs
  exact blendPixel_absent _ _ habs

/-- Closed witness for the frame property on a concrete pixel and region. -/
theorem blend_preserves_absent_witness :
    sumC zeroPix = 0 ∧ blendPixel (5, 6, 7) zeroPix = ((5, 6, 7) : Pix) :=
  ⟨rfl, blend_preserves_absent_tile_pixels.1 (5, 6, 7) zeroPix rfl⟩

/-- C6: freeze on insufficient matches. When the stitcher is initialized
and the current/previous tile pair yields fewer than 10 matches (including
the case where either side has no descriptors at all), the whole state —
canvas buffer, previous keypoints and descriptors, previous placement — is
returned unchanged. Totality of `stitchStep` reflects the `try/except`
around the worker body: no exception escapes the stitching step. -/
theorem freeze_on_insufficient_matches
    (matchFn : Desc → Desc → List (ℕ × ℕ)) (st : MosaicState)
    (inp : StitchInput) (hinit : st.first_frame_init = true)
    (hfew : ∀ dl dc, st.des_last = some dl → inp.des_curr = some dc →
      (matchFn dc dl).length < 10) :
    stitchStep matchFn st inp = st := by
  unfold stitchStep
  rw [if_neg (by simp [hinit])]
  split
  · next dl dc hdl hdc =>
    dsimp only
    rw [if_neg (by have := hfew dl dc hdl hdc; omega)]
  · rfl

/-- Closed witness: an initialized state with no stored descriptors is left
untouched by a further tile. -/
theorem freeze_on_insufficient_matches_witness :
    (MosaicState.mk (fun _ _ => zeroPix) 650 285 true [] none
        (some (650, 285))).first_frame_init = true ∧
    stitchStep (fun _ _ => [])
        ⟨fun _ _ => zeroPix, 650, 285, true, [], none, some (650, 285)⟩
        ⟨fun _ _ => zeroPix, [], none⟩ =
      ⟨fun _ _ => zeroPix, 650, 285, true, [], none, some (650, 285)⟩ :=
  ⟨rfl,
   freeze_on_insufficient_matches (fun _ _ => [])
      ⟨fun _ _ => zeroPix, 650, 285, true, [], none, some (650, 285)⟩
      ⟨fun _ _ => zeroPix, [], none⟩ rfl
      (fun _ _ h _ => nomatch h)⟩

/-- C4: canvas-bounds invariant. Starting from the reset canvas (with the
crop rectangle anywhere the crop-adjustment drag allows inside the camera
frame, so `225 ≤ crop_bottom ≤ 720`), after any run of the stitch worker,
if a tile has been placed then the stored placement position keeps the
200x225 tile footprint fully inside the 1500x1500 canvas — including the
very first, unclamped centered placement, and every clamped steady-state
placement. -/
theorem canvas_bounds_invariant (crop_bottom : ℤ) (h1 : 225 ≤ crop_bottom)
    (h2 : crop_bottom ≤ 720) (matchFn : Desc → Desc → List (ℕ × ℕ))
    (inputs : List StitchInput)
    (hinit : (runStitch matchFn (initMosaic crop_bottom) inputs).first_frame_init
      = true) :
    ∃ p, (runStitch matchFn (initMosaic crop_bottom) inputs).pos_last = some p ∧
      0 ≤ p.1 ∧ p.1 ≤ canvas_width - crop_width ∧
      0 ≤ p.2 ∧ p.2 ≤ canvas_height - crop_height := by
  obtain ⟨p, hp, hb⟩ :=
    (mosaicInv_run matchFn inputs _ (mosaicInv_init crop_bottom h1 h2)).2 hinit
  exact ⟨p, hp, hb.1, hb.2.1, hb.2.2.1, hb.2.2.2⟩

/-- Closed witness: one tile through the stitcher with the default crop
(`crop_bottom = 465`) yields a placement, and it is inside the canvas. -/
theorem canvas_bounds_invariant_witness :
    (225 : ℤ) ≤ 465 ∧ (465 : ℤ) ≤ 720 ∧
    (runStitch (fun _ _ => []) (initMosaic 465)
        [⟨fun _ _ => zeroPix, [], none⟩]).first_frame_init = true ∧
    (∃ p, (runStitch (fun _ _ => []) (initMosaic 465)
        [⟨fun _ _ => zeroPix, [], none⟩]).pos_last = some p ∧
      0 ≤ p.1 ∧ p.1 ≤ canvas_width - crop_width ∧
      0 ≤ p.2 ∧ p.2 ≤ canvas_height - crop_height) :=
  ⟨by norm_num, by norm_num, rfl,
   canvas_bounds_invariant 465 (by norm_num) (by norm_num) (fun _ _ => [])
      [⟨fun _ _ => zeroPix, [], none⟩] rfl⟩

lemma lawnAux_count_down (steps : ℕ) :
    ∀ (rows : ℕ) (b : Bool), (lawnAux steps rows b).count ('D', 'S') = rows - 1 := by
  intro rows
  induction rows with
  | zero => intro b; simp [lawnAux]
  | succ r ih =>
    intro b
    rw [lawnAux, List.count_append]
    have hrep : (List.replicate (steps - 1)
        (if b then ('S', 'R') else ('S', 'L'))).count ('D', 'S') = 0 := by
      rw [List.count_replicate]
      cases b <;> simp
    rw [hrep]
    rcases Nat.eq_zero_or_pos r with hr | hr
    · subst hr
      simp
    · have hr0 : ¬ r = 0 := by omega
      rw [if_neg hr0, List.count_cons, ih (!b)]
      simp
      omega

lemma lawnAux_countP_horiz (steps : ℕ) :
    ∀ (rows : ℕ) (b : Bool),
      (lawnAux steps rows b).countP (fun m => decide (m.1 = 'S')) =
        rows * (steps - 1) := by
  intro rows
  induction rows with
  | zero => intro b; simp [lawnAux]
  | succ r ih =>
    intro b
    rw [lawnAux, List.countP_append]
    have hrep : (List.replicate (steps - 1)
        (if b then ('S', 'R') else ('S', 'L'))).countP
          (fun m => decide (m.1 = 'S')) = steps - 1 := by
      rw [List.countP_replicate]
      cases b <;> simp
    rw [hrep]
    rcases Nat.eq_zero_or_pos r with hr | hr
    · subst hr
      simp
    · have hr0 : ¬ r = 0 := by omega
      rw [if_neg hr0, List.countP_cons, ih (!b)]
      simp
      ring
lemma lawnAux_length (steps : ℕ) :
    ∀ (rows : ℕ) (b : Bool),
      (lawnAux steps rows b).length = rows * (steps - 1) + (rows - 1) := by
  intro rows
  induction rows with
  | zero => intro b; simp [lawnAux]
  | succ r ih =>
    intro b
    rw [lawnAux, List.length_append, List.length_replicate]
    rcases Nat.eq_zero_or_pos r with hr | hr
    · subst hr
      simp
    · have hr0 : ¬ r = 0 := by omega
      rw [if_neg hr0, List.length_cons, ih (!b)]
      have : (r + 1) * (steps - 1) = r * (steps - 1) + (steps - 1) := by ring
      omega

/-- C7: lawnmower generation. The concrete pattern for 3 rows and 4 steps
per row is exactly the 11 moves RRR D LLL D RRR; and for any positive
configuration the pattern equals the closed boustrophedon form (row `i`
moves horizontally `steps - 1` times in the direction given by its parity,
flipping after each down move), with `rows * (steps - 1)` horizontal moves,
`rows - 1` down moves, and total length the sum of the two. -/
theorem lawnmower_generation :
    generate_lawnmower_pattern 3 4 =
      [('S', 'R'), ('S', 'R'), ('S', 'R'), ('D', 'S'),
       ('S', 'L'), ('S', 'L'), ('S', 'L'), ('D', 'S'),
       ('S', 'R'), ('S', 'R'), ('S', 'R')] ∧
    (∀ rows_to_scan steps_per_row : ℕ,
      1 ≤ rows_to_scan → 1 ≤ steps_per_row →
      generate_lawnmower_pattern rows_to_scan steps_per_row =
          lawnmowerSpec rows_to_scan steps_per_row ∧
        (generate_lawnmower_pattern rows_to_scan steps_per_row).count ('D', 'S') =
          rows_to_scan - 1 ∧
        (generate_lawnmower_pattern rows_to_scan steps_per_row).countP
            (fun m => decide (m.1 = 'S')) =
          rows_to_scan * (steps_per_row - 1) ∧
        (generate_lawnmower_pattern rows_to_scan steps_per_row).length =
          rows_to_scan * (steps_per_row - 1) + (rows_to_scan - 1)) := by
  constructor
  · rfl
  · intro rows steps _ _
    refine ⟨?_, ?_, ?_, ?_⟩
    · unfold generate_lawnmower_pattern lawnmowerSpec
      exact lawnAux_closed_form steps rows true
    · exact lawnAux_count_down steps rows true
    · exact lawnAux_countP_horiz steps rows true
    · exact lawnAux_length steps rows true

/-- Closed witness instantiating the general lawnmower facts at the
3-row, 4-step configuration. -/
theorem lawnmower_generation_witness :
    1 ≤ 3 ∧ 1 ≤ 4 ∧
    (generate_lawnmower_pattern 3 4 = lawnmowerSpec 3 4 ∧
      (generate_lawnmower_pattern 3 4).count ('D', 'S') = 3 - 1 ∧
      (generate_lawnmower_pattern 3 4).countP (fun m => decide (m.1 = 'S')) =
        3 * (4 - 1) ∧
      (generate_lawnmower_pattern 3 4).length = 3 * (4 - 1) + (3 - 1)) :=
  ⟨by norm_num, by norm_num,
   lawnmower_generation.2 3 4 (by norm_num) (by norm_num)⟩

/-- C3: median translation estimation. For a tile pair with at least 10
matches, the estimate is exactly the componentwise median of the per-match
displacement vectors (previous keypoint minus current keypoint), rounded to
nearest integer; consequently, whenever at least 60 percent of the
displacement vectors equal one integer offset `(dx, dy)` (up to 40 percent
arbitrary outliers), the estimate is exactly `(dx, dy)`. -/
theorem median_translation_estimation
    (kp_curr kp_last : List (ℚ × ℚ)) (ms : List (ℕ × ℕ))
    (h10 : 10 ≤ ms.length) :
    estimateOffset kp_curr kp_last ms =
        (pyRound (medianQ ((dispVectors kp_curr kp_last ms).map Prod.fst)),
         pyRound (medianQ ((dispVectors kp_curr kp_last ms).map Prod.snd))) ∧
    (∀ dx dy : ℤ,
      3 * ms.length ≤
          5 * (dispVectors kp_curr kp_last ms).count ((dx : ℚ), (dy : ℚ)) →
        estimateOffset kp_curr kp_last ms = (dx, dy)) := by
  constructor
  · rfl
  · intro dx dy hmaj
    have hlen : (dispVectors kp_curr kp_last ms).length = ms.length :=
      List.length_map _ _
    have hcle : (dispVectors kp_curr kp_last ms).count ((dx : ℚ), (dy : ℚ)) ≤
        ms.length := by
      rw [← hlen]
      exact List.count_le_length _ _
    have hx := count_map_le Prod.fst (dispVectors kp_curr kp_last ms)
      ((dx : ℚ), (dy : ℚ))
    have hy := count_map_le Prod.snd (dispVectors kp_curr kp_last ms)
      ((dx : ℚ), (dy : ℚ))
    dsimp only at hx hy
    have hxlen : ((dispVectors kp_curr kp_last ms).map Prod.fst).length =
        ms.length := by
      rw [List.length_map, hlen]
    have hylen : ((dispVectors kp_curr kp_last ms).map Prod.snd).length =
        ms.length := by
      rw [List.length_map, hlen]
    have hmx : medianQ ((dispVectors kp_curr kp_last ms).map Prod.fst) =
        (dx : ℚ) := by
      apply medianQ_of_majority
      · omega
      · omega
    have hmy : medianQ ((dispVectors kp_curr kp_last ms).map Prod.snd) =
        (dy : ℚ) := by
      apply medianQ_of_majority
      · omega
      · omega
    unfold estimateOffset
    rw [hmx, hmy, pyRound_intCast, pyRound_intCast]

/-- Closed witness: ten identity matches over coincident keypoints give the
zero offset, and a 60 percent majority at offset `(0, 0)` is honored. -/
theorem median_translation_estimation_witness :
    10 ≤ (List.range 10|>.map (fun i => (i, i))).length ∧
    estimateOffset (List.replicate 10 ((0 : ℚ), (0 : ℚ)))
        (List.replicate 10 ((0 : ℚ), (0 : ℚ)))
        (List.range 10|>.map (fun i => (i, i))) =
      (pyRound (medianQ ((dispVectors (List.replicate 10 ((0 : ℚ), (0 : ℚ)))
          (List.replicate 10 ((0 : ℚ), (0 : ℚ)))
          (List.range 10|>.map (fun i => (i, i)))).map Prod.fst)),
       pyRound (medianQ ((dispVectors (List.replicate 10 ((0 : ℚ), (0 : ℚ)))
          (List.replicate 10 ((0 : ℚ), (0 : ℚ)))
          (List.range 10|>.map (fun i => (i, i)))).map Prod.snd))) :=
  ⟨by decide,
   (median_translation_estimation
      (List.replicate 10 ((0 : ℚ), (0 : ℚ)))
      (List.replicate 10 ((0 : ℚ), (0 : ℚ)))
      (List.range 10|>.map (fun i => (i, i))) (by decide)).1⟩

/-- C9: selection failure keeps the tracker unlocked. If no candidate
contour with nonzero area has its centroid within 100 px (squared distance
10000) of the pending click, `handle_click_selection` leaves
`tracking_active`, the target position and the history exactly as they
were (only the pending click is consumed); when the nearest contour is
within 100 px, the tracker locks and the history is reset to exactly the
selected centroid. -/
theorem click_selection_failure_keeps_unlocked
    (st : TrackerState) (contours : List Contour) (cp : ℤ × ℤ)
    (hawait : st.awaiting_selection = true)
    (hclick : st.click_position = some cp) :
    ((∀ c ∈ contours, ¬ c.m00 = 0 → 10000 ≤ sqDist (centroid c) cp) →
      (handle_click_selection st contours).tracking_active =
          st.tracking_active ∧
        (handle_click_selection st contours).target_position =
          st.target_position ∧
        (handle_click_selection st contours).target_history =
          st.target_history ∧
        (handle_click_selection st contours).awaiting_selection = false) ∧
    (∀ a, find_nearest_contour contours cp = some a → a.2.1 < 10000 →
      (handle_click_selection st contours).tracking_active = true ∧
        (handle_click_selection st contours).target_history = [a.2.2] ∧
        (handle_click_selection st contours).target_position = some a.2.2) := by
  constructor
  · intro hfar
    unfold handle_click_selection
    simp only [hawait, hclick]
    cases hfnc : find_nearest_contour contours cp with
    | none => exact ⟨rfl, rfl, rfl, rfl⟩
    | some a =>
      have hge : 10000 ≤ a.2.1 :=
        fncAux_min_ge cp 10000 contours none hfar (fun a' ha' => nomatch ha')
          a hfnc
      dsimp only
      rw [if_neg (not_lt.mpr hge)]
      exact ⟨rfl, rfl, rfl, rfl⟩
  · intro a ha hlt
    unfold handle_click_selection
    simp only [hawait, hclick, ha]
    rw [if_pos hlt]
    exact ⟨rfl, rfl, rfl⟩

/-- Closed witness: a pending click with no candidate contours fails
selection and leaves the (unlocked) tracker state unchanged. -/
theorem click_selection_failure_witness :
    (TrackerState.mk false none [] none true (some (0, 0))).awaiting_selection
        = true ∧
    (TrackerState.mk false none [] none true
        (some (0, 0))).click_position = some (0, 0) ∧
    ((handle_click_selection ⟨false, none, [], none, true, some (0, 0)⟩
        []).tracking_active = false ∧
      (handle_click_selection ⟨false, none, [], none, true, some (0, 0)⟩
        []).target_position = none ∧
      (handle_click_selection ⟨false, none, [], none, true, some (0, 0)⟩
        []).target_history = [] ∧
      (handle_click_selection ⟨false, none, [], none, true, some (0, 0)⟩
        []).awaiting_selection = false) :=
  ⟨rfl, rfl,
   (click_selection_failure_keeps_unlocked
      ⟨false, none, [], none, true, some (0, 0)⟩ [] (0, 0) rfl rfl).1
      (fun c hc => absurd hc (List.not_mem_nil c))⟩

/-- C8 counterexample: the rate-limit claim as stated is false. With a
connected controller, a non-STOP command at t = 100 whose write succeeds
but whose response read raises leaves the timestamp at 0, so a second
non-STOP command at t = 101 is also transmitted — two non-STOP
transmissions only 1 second apart, far below the 3-second interval. -/
theorem rate_limit_counterexample : ¬ rateLimitAsStated := by
  intro h
  have h2 := h ⟨true, 0⟩
    [⟨100, 'U', 'S', ⟨true, false⟩⟩, ⟨101, 'U', 'S', ⟨true, true⟩⟩]
    (by
      refine List.chain'_cons.mpr ⟨?_, ?_⟩
      · norm_num
      · exact List.chain'_singleton _)
  have hrun : runMotor ⟨true, 0⟩
      [⟨100, 'U', 'S', ⟨true, false⟩⟩, ⟨101, 'U', 'S', ⟨true, true⟩⟩] =
      [⟨100, 'U', 'S', true, false⟩, ⟨101, 'U', 'S', true, true⟩] := by
    simp only [runMotor, send_motor_command_simple]
    norm_num [MOTOR_COMMAND_INTERVAL]
    simp only [if_neg (show ¬ ('U' : Char) = 'S' from by decide)]
    exact ⟨trivial, trivial⟩
  rw [hrun] at h2
  have h3 := (List.pairwise_cons.mp h2).1 ⟨101, 'U', 'S', true, true⟩
    (List.mem_cons_self _ _)
  have h4 := h3 ⟨by decide, rfl, by decide, rfl⟩
  norm_num [MOTOR_COMMAND_INTERVAL] at h4

/-- C8 amended: (a) any non-STOP command transmitted after an earlier
non-STOP command whose dispatch fully succeeded (write and response read,
so the rate-limit timestamp was advanced) lies at least the minimum
interval after it; (b) a STOP command on a connected link with a working
write is always transmitted immediately, with no rate check; (c) a
non-STOP command arriving inside the interval is not transmitted and
changes nothing. -/
theorem rate_limit_with_stop_bypass :
    (∀ (st : MotorState) (es : List MotorEvent),
      (runMotor st es).Pairwise (fun a b =>
        (¬(a.y_cmd = 'S' ∧ a.x_cmd = 'S') ∧ a.transmitted = true ∧
          a.ok = true ∧
          ¬(b.y_cmd = 'S' ∧ b.x_cmd = 'S') ∧ b.transmitted = true) →
          MOTOR_COMMAND_INTERVAL ≤ b.t - a.t)) ∧
    (∀ (st : MotorState) (now : ℚ) (dev : DevOutcome),
      st.arduino_connected = true → dev.writeOk = true →
      (send_motor_command_simple st 'S' 'S' now dev).transmitted = true) ∧
    (∀ (st : MotorState) (y_cmd x_cmd : Char) (now : ℚ) (dev : DevOutcome),
      ¬(y_cmd = 'S' ∧ x_cmd = 'S') →
      now - st.last_motor_command_time < MOTOR_COMMAND_INTERVAL →
      (send_motor_command_simple st y_cmd x_cmd now dev).transmitted = false ∧
        (send_motor_command_simple st y_cmd x_cmd now dev).state = st) := by
  refine ⟨fun st es => runMotor_pairwise_amended es st, ?_, ?_⟩
  · intro st now dev hc hw
    unfold send_motor_command_simple
    rw [if_pos ⟨rfl, rfl⟩, if_neg (by rw [hc]; decide),
      if_neg (by rw [hw]; decide)]
    by_cases hr : dev.respOk = false
    · rw [if_pos hr]
    · rw [if_neg hr]
  · intro st y_cmd x_cmd now dev hns hrl
    unfold send_motor_command_simple
    rw [if_neg hns, if_pos hrl]
    exact ⟨rfl, rfl⟩

/-- Closed witness exercising the amended rate-limit theorem: the STOP
bypass at a concrete recently-used state, and the inside-interval
rejection of a movement command. -/
theorem rate_limit_with_stop_bypass_witness :
    ((MotorState.mk true 100).arduino_connected = true ∧
      (DevOutcome.mk true true).writeOk = true ∧
      (send_motor_command_simple ⟨true, 100⟩ 'S' 'S' 101 ⟨true, true⟩).transmitted
        = true) ∧
    (¬(('U' : Char) = 'S' ∧ ('S' : Char) = 'S') ∧
      (101 : ℚ) - (MotorState.mk true 100).last_motor_command_time <
        MOTOR_COMMAND_INTERVAL ∧
      (send_motor_command_simple ⟨true, 100⟩ 'U' 'S' 101 ⟨true, true⟩).transmitted
          = false ∧
        (send_motor_command_simple ⟨true, 100⟩ 'U' 'S' 101 ⟨true, true⟩).state =
          ⟨true, 100⟩) :=
  ⟨⟨rfl, rfl,
    rate_limit_with_stop_bypass.2.1 ⟨true, 100⟩ 101 ⟨true, true⟩ rfl rfl⟩,
   ⟨by decide,
    by norm_num [MOTOR_COMMAND_INTERVAL],
    rate_limit_with_stop_bypass.2.2 ⟨true, 100⟩ 'U' 'S' 101 ⟨true, true⟩
      (by decide) (by norm_num [MOTOR_COMMAND_INTERVAL])⟩⟩
